import Mathlib

/-!
Verification of the fetch → normalize → filter → export pipeline of
`src/app.py` (a Streamlit app showing DMR operator registrations for Chile).

The pandas `DataFrame` is modelled as a `Frame`: a list of column names plus
one association list `String × Val` per row.  A `Val` is a cell value:
`Val.null` models Python `None` (JSON null, or a column synthesized with
`pd.Series([None] * len(df))`), `Val.nan` models the float NaN that pandas
inserts for keys missing from an individual record when the frame is built
from a list of dicts, and `Val.str` is a string cell.  The distinction
matters because `astype(str)` renders `None` as `"None"` but NaN as `"nan"`.

Python string primitives are modelled over explicit character lists:
`pyUpper` models `str.upper` (faithful on ASCII, which is all the proofs
use), `pyStrip` models `str.strip`, and string comparison is code-point
lexicographic, exactly as in Python.
-/

/-- Model of Python `str.upper` (`Char.toUpper` agrees with Python on ASCII). -/
def pyUpper (s : String) : String := ⟨s.data.map Char.toUpper⟩

/-- Model of Python `str.strip`: drop whitespace from both ends. -/
def pyStrip (s : String) : String :=
  ⟨((s.data.dropWhile Char.isWhitespace).reverse.dropWhile Char.isWhitespace).reverse⟩

/-- A pandas cell value. -/
inductive Val where
  | null : Val
  | nan : Val
  | str (s : String) : Val
deriving DecidableEq

/-- Whether a cell counts as missing for pandas (`isna`): both `None` and NaN do. -/
def Val.isNA : Val → Bool
  | .null => true
  | .nan => true
  | .str _ => false

/-- Model of elementwise `astype(str)`: `str(None) = "None"`, `str(nan) = "nan"`. -/
def valToStr : Val → String
  | .null => "None"
  | .nan => "nan"
  | .str s => s

/-- Model of `Series.fillna(d)`: replaces both `None` and NaN by `d`. -/
def fillNA (v : Val) (d : String) : Val :=
  if v.isNA then .str d else v

/-- A record of the JSON payload: one dict of the `results` array.
JSON null is modelled as `Val.null`; keys are unique (it models a dict). -/
abbrev Rec0 := List (String × Val)

/-- Model of a pandas DataFrame: column names in order, and one association
list per row (each row lists every column, in column order). -/
structure Frame where
  cols : List String
  rows : List (List (String × Val))
deriving DecidableEq

/-- Reading a cell of a row by column name (`df[col]` elementwise). -/
def getVal (row : List (String × Val)) (c : String) : Val :=
  (List.lookup c row).getD Val.nan

/-- Append the keys of `ks` that are not yet in `acc`, preserving order. -/
def addNewKeys (acc : List String) (ks : List String) : List String :=
  ks.foldl (fun a k => if k ∈ a then a else a ++ [k]) acc

/-- Column order of `pd.DataFrame(records)`: keys in order of first appearance. -/
def firstSeenKeys (records : List Rec0) : List String :=
  records.foldl (fun a r => addNewKeys a (r.map Prod.fst)) []

/-- Model of `pd.DataFrame(results)`: keys missing from an individual record
become NaN cells. -/
def mkFrame (records : List Rec0) : Frame :=
  let ks := firstSeenKeys records
  { cols := ks
    rows := records.map (fun r =>
      ks.map (fun c => (c, match List.lookup c r with
        | some v => v
        | none => Val.nan))) }

/-- Model of `df[c] = <all-v column>` for a column `c` not yet present. -/
def addMissingCol (v : Val) (f : Frame) (c : String) : Frame :=
  if c ∈ f.cols then f
  else { cols := f.cols ++ [c], rows := f.rows.map (fun row => row ++ [(c, v)]) }

/-- Model of the `for col in [...]: if col not in df.columns: df[col] = ...`
loops (lines 22-24 synthesize with `pd.Series([None]*len(df))`, lines 111-115
assign `None`; both yield all-`None` columns). -/
def ensureColumns (names : List String) (v : Val) (f : Frame) : Frame :=
  names.foldl (addMissingCol v) f

/-- The seven expected columns of line 22 of `src/app.py`, in source order. -/
def expectedCols : List String :=
  ["state", "city", "callsign", "radio_id", "fname", "lname", "last_seen"]

/-- The display columns of line 110 of `src/app.py`, in source order. -/
def columns_to_show : List String :=
  ["callsign", "radio_id", "fname", "lname", "city", "state", "last_seen"]

/-- Model of `df[name] = g(df[name])` applied elementwise. -/
def mapCol (f : Frame) (name : String) (g : Val → Val) : Frame :=
  { cols := f.cols
    rows := f.rows.map (fun row =>
      row.map (fun kv => if kv.1 = name then (kv.1, g kv.2) else kv)) }

/-- One row of the normalized table, projected onto the seven schema fields
(the row type the filter pipeline and the aggregation read). -/
structure Operator where
  state : Val
  city : Val
  callsign : Val
  radio_id : Val
  fname : Val
  lname : Val
  last_seen : Val
deriving DecidableEq

/-- Projection of a frame row onto the seven schema fields. -/
def recOf (row : List (String × Val)) : Operator :=
  { state := getVal row "state"
    city := getVal row "city"
    callsign := getVal row "callsign"
    radio_id := getVal row "radio_id"
    fname := getVal row "fname"
    lname := getVal row "lname"
    last_seen := getVal row "last_seen" }

/-- Strict code-point lexicographic order on character lists: this is exactly
Python's `<` on strings (and what pandas uses to compare string cells). -/
def lexLt : List Char → List Char → Bool
  | [], [] => false
  | [], _ :: _ => true
  | _ :: _, [] => false
  | a :: as, b :: bs =>
    if a.toNat < b.toNat then true
    else if b.toNat < a.toNat then false
    else lexLt as bs

/-- Non-strict code-point lexicographic order on character lists. -/
def lexLe : List Char → List Char → Bool
  | [], _ => true
  | _ :: _, [] => false
  | a :: as, b :: bs =>
    if a.toNat < b.toNat then true
    else if b.toNat < a.toNat then false
    else lexLe as bs

/-- Python `<` on strings. -/
def strLt (a b : String) : Bool := lexLt a.data b.data

/-- Python `<=` on strings. -/
def strLe (a b : String) : Bool := lexLe a.data b.data

/-- Strict comparison of sort-key cells under `na_position="last"`: every
string sorts before a missing value; missing values tie with each other. -/
def valLt (a b : Val) : Bool :=
  match a, b with
  | .str x, .str y => strLt x y
  | .str _, _ => true
  | _, _ => false

/-- Key-equivalence of sort-key cells: equal strings, or two missing values. -/
def valEqv (a b : Val) : Bool :=
  match a, b with
  | .str x, .str y => x == y
  | .str _, _ => false
  | _, .str _ => false
  | _, _ => true

/-- The sort order of line 30: lexicographic on `(state, city, callsign)`,
each key compared with missing values last. -/
def rowLe (a b : Operator) : Bool :=
  valLt a.state b.state ||
    (valEqv a.state b.state &&
      (valLt a.city b.city ||
        (valEqv a.city b.city &&
          (valLt a.callsign b.callsign || valEqv a.callsign b.callsign))))

/-- The sort order as a relation, for `List.insertionSort` / `List.Sorted`. -/
def rowLeP (a b : Operator) : Prop := rowLe a b = true

instance : DecidableRel rowLeP := fun _ _ => instDecidableEqBool _ _

/-- Row order induced on frame rows by their `(state, city, callsign)` cells. -/
def frameRowLe (r1 r2 : List (String × Val)) : Prop := rowLeP (recOf r1) (recOf r2)

instance : DecidableRel frameRowLe := fun _ _ => instDecidableEqBool _ _

/-- Model of `df.sort_values(["state","city","callsign"], na_position="last")`
followed by `reset_index(drop=True)`.  pandas uses a stable lexicographic sort
for a multi-column key; a stable insertion sort under the same total preorder
produces the identical row list. -/
def sortFrame (f : Frame) : Frame :=
  { cols := f.cols, rows := List.insertionSort frameRowLe f.rows }

/-- Lines 19-31 of `src/app.py` on a successfully parsed payload: build the
frame, synthesize missing expected columns, apply the per-column
normalizations, and sort. -/
def normFrame (results : List Rec0) : Frame :=
  sortFrame
    (mapCol
      (mapCol
        (mapCol (ensureColumns expectedCols Val.null (mkFrame results))
          "state" (fun v => Val.str (pyStrip (valToStr (fillNA v "Sin Región")))))
        "city" (fun v => Val.str (pyStrip (valToStr (fillNA v "Sin Ciudad")))))
      "callsign" (fun v => Val.str (pyUpper (valToStr v))))

/-- The ways one call of `fetch_data` can go, as observed at its boundary with
`requests`: the HTTP layer fails (connection error, timeout, or a 4xx/5xx
status turned into an exception by `raise_for_status`), the body is not valid
JSON, the body is valid JSON whose top level is not an object, or the body is
an object whose optional `results` key holds a list of records. -/
inductive FetchOutcome where
  | connectionError (msg : String)
  | timeout (msg : String)
  | httpError (msg : String)
  | jsonDecodeError (msg : String)
  | jsonNonObject
  | success (results : Option (List Rec0))

/-- The Python exceptions the body of `fetch_data` can raise.  With requests
≥ 2.27, `Response.json()` raises `requests.exceptions.JSONDecodeError`, a
subclass of `RequestException`; `js.get(...)` on a non-dict raises
`AttributeError`, which is not one. -/
inductive PyExn where
  | requestException (msg : String)
  | attributeError (msg : String)
deriving DecidableEq

/-- Which exceptions the `except requests.exceptions.RequestException` clause
of line 32 catches. -/
def isRequestException : PyExn → Bool
  | .requestException _ => true
  | .attributeError _ => false

/-- Python `str(e)` for the caught exception (its message). -/
def strPyExn : PyExn → String
  | .requestException m => m
  | .attributeError m => m

/-- The `try` body of `fetch_data` (lines 15-31): either a normalized frame,
or the exception that escapes the body. -/
def tryBody : FetchOutcome → Except PyExn Frame
  | .connectionError m => .error (.requestException m)
  | .timeout m => .error (.requestException m)
  | .httpError m => .error (.requestException m)
  | .jsonDecodeError m => .error (.requestException m)
  | .jsonNonObject => .error (.attributeError "object has no attribute get")
  | .success results => .ok (normFrame (results.getD []))

/-- The empty `pd.DataFrame()` returned on a caught failure. -/
def emptyFrame : Frame := { cols := [], rows := [] }

/-- Lines 13-34 of `src/app.py`: run the body; catch `RequestException`s,
reporting a message via `st.error` and returning an empty frame; any other
exception propagates.  The result is the produced frame together with the
list of user-visible error messages reported. -/
def fetch_data (o : FetchOutcome) : Except PyExn (Frame × List String) :=
  match tryBody o with
  | .ok df => .ok (df, [])
  | .error e =>
    if isRequestException e then
      .ok (emptyFrame, ["Error consultando la API: " ++ strPyExn e])
    else .error e

/-!
Model of the Python `re` fragment that `Series.str.contains` exercises.
`str.contains` treats its pattern as a regular expression (`regex=True` is
the default) and uses `re.search`, i.e. the pattern may match anywhere in the
string.  The model covers literal characters, `.`, alternation `|`, grouping
`( )`, the postfix operators `* + ?`, and single-character escapes; the
patterns appearing in the theorems below stay inside this fragment.
Characters outside it (`[ { ^ $`) are rejected by the model's compiler and
are used by no theorem.  An invalid pattern — such as an unbalanced `(` —
raises `re.error` in Python; the model's compiler returns `.error` for it.
-/

/-- Abstract syntax of the modelled regular-expression fragment. -/
inductive Rx where
  | fail : Rx
  | eps : Rx
  | chr (c : Char) : Rx
  | dot : Rx
  | alt (a b : Rx) : Rx
  | seq (a b : Rx) : Rx
  | star (a : Rx) : Rx
deriving DecidableEq

/-- Whether a regex accepts the empty string. -/
def nullable : Rx → Bool
  | .fail => false
  | .eps => true
  | .chr _ => false
  | .dot => false
  | .alt a b => nullable a || nullable b
  | .seq a b => nullable a && nullable b
  | .star _ => true

/-- Brzozowski derivative of a regex with respect to one character. -/
def rxDeriv : Rx → Char → Rx
  | .fail, _ => .fail
  | .eps, _ => .fail
  | .chr c, d => if d = c then .eps else .fail
  | .dot, _ => .eps
  | .alt a b, d => .alt (rxDeriv a d) (rxDeriv b d)
  | .seq a b, d =>
    if nullable a then .alt (.seq (rxDeriv a d) b) (rxDeriv b d)
    else .seq (rxDeriv a d) b
  | .star a, d => .seq (rxDeriv a d) (.star a)

/-- Whether a regex matches a whole character list. -/
def rxFull : Rx → List Char → Bool
  | r, [] => nullable r
  | r, c :: cs => rxFull (rxDeriv r c) cs

/-- Model of `re.search`: the regex matches some contiguous part of the input. -/
def rxSearch (r : Rx) (l : List Char) : Bool :=
  l.tails.any (fun t => t.inits.any (fun p => rxFull r p))

/-- Model of `re.search` on a string. -/
def rxSearchS (r : Rx) (s : String) : Bool := rxSearch r s.data

/-- Apply one postfix repetition operator. -/
def applyPostfix (p : Char) (r : Rx) : Rx :=
  if p = '*' then .star r
  else if p = '+' then .seq r (.star r)
  else .alt r .eps

/-- Consume postfix repetition operators after an atom. -/
def parsePost (r : Rx) : List Char → Rx × List Char
  | p :: rest =>
    if p = '*' ∨ p = '+' ∨ p = '?' then parsePost (applyPostfix p r) rest
    else (r, p :: rest)
  | [] => (r, [])

mutual

/-- Parse an alternation (`cat ('|' alt)?`). -/
def parseAlt : Nat → List Char → Except String (Rx × List Char)
  | 0, _ => .error "model: out of fuel"
  | fuel + 1, cs => do
    let (l, rest) ← parseCat fuel cs
    match rest with
    | '|' :: rest2 => do
      let (r, rest3) ← parseAlt fuel rest2
      .ok (.alt l r, rest3)
    | _ => .ok (l, rest)

/-- Parse a concatenation of pieces, stopping at `)`/`|` or the end. -/
def parseCat : Nat → List Char → Except String (Rx × List Char)
  | 0, _ => .error "model: out of fuel"
  | _ + 1, [] => .ok (.eps, [])
  | fuel + 1, c :: cs =>
    if c = ')' ∨ c = '|' then .ok (.eps, c :: cs)
    else do
      let (a, rest) ← parseAtom fuel (c :: cs)
      let (a2, rest2) := parsePost a rest
      let (b, rest3) ← parseCat fuel rest2
      .ok (.seq a2 b, rest3)

/-- Parse one atom: a group, `.`, an escape, or a literal character. -/
def parseAtom : Nat → List Char → Except String (Rx × List Char)
  | 0, _ => .error "model: out of fuel"
  | _ + 1, [] => .error "model: empty atom"
  | fuel + 1, c :: cs =>
    if c = '(' then
      match parseAlt fuel cs with
      | .error e => .error e
      | .ok (r, rest) =>
        match rest with
        | ')' :: rest2 => .ok (r, rest2)
        | _ => .error "missing ), unterminated subpattern"
    else if c = '.' then .ok (.dot, cs)
    else if c = '\\' then
      match cs with
      | d :: ds => .ok (.chr d, ds)
      | [] => .error "bad escape (end of pattern)"
    else if c = '*' ∨ c = '+' ∨ c = '?' then .error "nothing to repeat"
    else if c = '^' ∨ c = '$' ∨ c = '[' ∨ c = '\x7b' then
      .error "model: construct outside the modelled regex fragment"
    else .ok (.chr c, cs)

end

/-- Model of `re.compile` on the modelled fragment: parse the whole pattern;
leftover input (a stray `)`) is an error, as in Python. -/
def reCompile (s : String) : Except String Rx :=
  match parseAlt (3 * s.data.length + 4) s.data with
  | .error e => .error e
  | .ok (r, []) => .ok r
  | .ok (_, _ :: _) => .error "unbalanced parenthesis"

/-- The characters Python's `re` treats as special. -/
def metaChars : List Char :=
  ['.', '^', '$', '*', '+', '?', '\x7b', '\x7d', '[', ']', '\\', '|', '(', ')']

/-- A pattern consisting only of literal (non-special) characters. -/
def noMeta (l : List Char) : Bool := l.all (fun c => decide (c ∉ metaChars))

/-- The regex denoting one literal character list. -/
def litRx (l : List Char) : Rx := l.foldr (fun c acc => Rx.seq (.chr c) acc) .eps

/-!
The filter pipeline of lines 84-107, as row predicates over the normalized
schema.  `Series.isin` compares cell values against the given list; a missing
value is in no list.  The text mask of lines 100-106 applies `astype(str)`
(so missing values read as the text `"None"`/`"nan"`), uppercases every field
except `callsign`, and searches for the uppercased, stripped query.
-/

/-- Model of `Series.isin(options)` on one cell. -/
def valIsIn (v : Val) (options : List String) : Bool :=
  match v with
  | .str s => options.contains s
  | _ => false

/-- Row predicate of the region filter (line 88). -/
def regionPred (regions : List String) (r : Operator) : Bool :=
  valIsIn r.state regions

/-- Row predicate of the city filter (line 95). -/
def cityPred (cities : List String) (r : Operator) : Bool :=
  valIsIn r.city cities

/-- Row predicate of the text mask (lines 100-106), for a compiled query. -/
def maskPred (rx : Rx) (r : Operator) : Bool :=
  rxSearchS rx (valToStr r.callsign) ||
  rxSearchS rx (pyUpper (valToStr r.fname)) ||
  rxSearchS rx (pyUpper (valToStr r.lname)) ||
  rxSearchS rx (pyUpper (valToStr r.city)) ||
  rxSearchS rx (pyUpper (valToStr r.state))

/-- A table as the filter pipeline sees it: a list of schema rows. -/
abbrev Table := List Operator

/-- Line 88: keep the rows whose `state` is in the selected regions. -/
def regionStage (T : Table) (regions : List String) : Table :=
  T.filter (regionPred regions)

/-- Lines 94-95: an empty city selection is no restriction. -/
def cityStage (T : Table) (cities : List String) : Table :=
  if cities.isEmpty then T else T.filter (cityPred cities)

/-- Lines 98-107: strip and uppercase the query; an empty result is no
restriction; otherwise compile it as a regex (raising, i.e. `.error`, on an
invalid pattern, as `re` does) and keep the rows matching the mask. -/
def textStage (T : Table) (query : String) : Except String Table :=
  let q := pyUpper (pyStrip query)
  if q = "" then .ok T
  else
    match reCompile q with
    | .error e => .error e
    | .ok rx => .ok (T.filter (maskPred rx))

/-- The whole filter pipeline: region, then city, then text. -/
def filterPipeline (T : Table) (regions cities : List String) (query : String) :
    Except String Table :=
  textStage (cityStage (regionStage T regions) cities) query

/-- pandas `Series.unique()`: distinct values in order of first appearance. -/
def uniqueFS (l : List String) : List String :=
  l.foldl (fun acc s => if s ∈ acc then acc else acc ++ [s]) []

/-- Python `sorted` order on strings. -/
def strLeP (a b : String) : Prop := strLe a b = true

instance : DecidableRel strLeP := fun _ _ => instDecidableEqBool _ _

/-- The non-missing `state` cells of a table, in row order. -/
def stateStrs (T : Table) : List String :=
  T.filterMap (fun r => match r.state with | .str s => some s | _ => none)

/-- Line 84: `sorted(df["state"].dropna().unique().tolist())`. -/
def regionsOf (T : Table) : List String :=
  List.insertionSort strLeP (uniqueFS (stateStrs T))

/-- Descending-count order on `(state, count)` pairs. -/
def descCountLe (a b : String × Nat) : Prop := b.2 ≤ a.2

instance : DecidableRel descCountLe := fun a b => Nat.decLe b.2 a.2

/-- Lines 147: `df_filtered["state"].value_counts().sort_values(ascending=False)`:
occurrence counts of the distinct non-missing `state` values, sorted by count
descending (`value_counts` drops missing values). -/
def counts_region (T : Table) : List (String × Nat) :=
  List.insertionSort descCountLe
    ((uniqueFS (stateStrs T)).map (fun s => (s, (stateStrs T).count s)))

/-!
CSV export (line 36-37): `df.to_csv(index=False)` writes one header line with
the frame's column names in the frame's own order, then one line per row,
each terminated by a newline; missing values render as empty fields; fields
containing a separator, quote or newline are quoted with doubled quotes.
-/

/-- Whether a field needs quoting under pandas' minimal quoting. -/
def csvNeedsQuote (s : String) : Bool :=
  s.data.any (fun c => c = ',' || c = '"' || c = '\n' || c = '\r')

/-- Double every quote character. -/
def csvEscape : List Char → List Char
  | [] => []
  | c :: cs => if c = '"' then '"' :: '"' :: csvEscape cs else c :: csvEscape cs

/-- Render one field, quoting when needed. -/
def csvQuote (s : String) : String :=
  if csvNeedsQuote s then "\"" ++ String.mk (csvEscape s.data) ++ "\"" else s

/-- Render one cell: missing values become the empty field. -/
def csvCell : Val → String
  | .str s => csvQuote s
  | _ => ""

/-- Render one row. -/
def csvRow (row : List (String × Val)) : String :=
  String.intercalate "," (row.map (fun kv => csvCell kv.2))

/-- The lines of `df.to_csv(index=False)`: header first, then one per row. -/
def csvLines (f : Frame) : List String :=
  String.intercalate "," (f.cols.map csvQuote) :: f.rows.map csvRow

/-- Lines 36-37 of `src/app.py` (the UTF-8 encoding step is identity on the
modelled text): every line, header included, ends with a newline. -/
def to_csv_bytes (f : Frame) : String :=
  String.join ((csvLines f).map (fun l => l ++ "\n"))

/-- Lines 84-107 executed on the frame itself, as the app does: the same
three stages, with each row predicate reading the row's schema cells. -/
def frameFilter (f : Frame) (regions cities : List String) (query : String) :
    Except String Frame :=
  let rows1 := f.rows.filter (fun row => regionPred regions (recOf row))
  let rows2 := if cities.isEmpty then rows1
    else rows1.filter (fun row => cityPred cities (recOf row))
  let q := pyUpper (pyStrip query)
  if q = "" then .ok { cols := f.cols, rows := rows2 }
  else
    match reCompile q with
    | .error e => .error e
    | .ok rx => .ok { cols := f.cols, rows := rows2.filter (fun row => maskPred rx (recOf row)) }

/-- Lines 110-115: add any display column still missing (assigning `None`). -/
def ensureDisplayCols (f : Frame) : Frame :=
  ensureColumns columns_to_show Val.null f

/-! Order lemmas for the sort keys. -/

theorem charEq_of_toNat_eq {a b : Char} (h : a.toNat = b.toNat) : a = b := by
  cases a; cases b
  simp only [Char.toNat] at h
  congr 1
  exact UInt32.toNat.inj h

theorem lexLt_cons_iff (a b : Char) (as bs : List Char) :
    lexLt (a :: as) (b :: bs) = true ↔
      a.toNat < b.toNat ∨ (a.toNat = b.toNat ∧ lexLt as bs = true) := by
  simp only [lexLt]
  by_cases h1 : a.toNat < b.toNat
  · simp [h1]
  · by_cases h2 : b.toNat < a.toNat
    · simp [h1, h2]; omega
    · have h3 : ¬ a.toNat = b.toNat → False := by omega
      simp [h1, h2]; omega

theorem lexLt_trans : ∀ (a b c : List Char),
    lexLt a b = true → lexLt b c = true → lexLt a c = true
  | [], [], _, hab, _ => by simp [lexLt] at hab
  | [], _ :: _, [], _, hbc => by simp [lexLt] at hbc
  | [], _ :: _, _ :: _, _, _ => by simp [lexLt]
  | _ :: _, [], _, hab, _ => by simp [lexLt] at hab
  | _ :: _, _ :: _, [], _, hbc => by simp [lexLt] at hbc
  | a :: as, b :: bs, c :: cs, hab, hbc => by
    rw [lexLt_cons_iff] at hab hbc ⊢
    rcases hab with h | ⟨he, hab⟩
    · rcases hbc with h2 | ⟨he2, _⟩
      · exact Or.inl (by omega)
      · exact Or.inl (by omega)
    · rcases hbc with h2 | ⟨he2, hbc⟩
      · exact Or.inl (by omega)
      · exact Or.inr ⟨by omega, lexLt_trans as bs cs hab hbc⟩

theorem lexLt_connex : ∀ (a b : List Char),
    lexLt a b = false → lexLt b a = false → a = b
  | [], [], _, _ => rfl
  | [], _ :: _, hab, _ => by simp [lexLt] at hab
  | _ :: _, [], _, hba => by simp [lexLt] at hba
  | a :: as, b :: bs, hab, hba => by
    have h1 : ¬ (a.toNat < b.toNat ∨ (a.toNat = b.toNat ∧ lexLt as bs = true)) := by
      rw [← lexLt_cons_iff]; simp [hab]
    have h2 : ¬ (b.toNat < a.toNat ∨ (b.toNat = a.toNat ∧ lexLt bs as = true)) := by
      rw [← lexLt_cons_iff]; simp [hba]
    push_neg at h1 h2
    have hn1 := h1.1
    have hn2 := h2.1
    have he : a.toNat = b.toNat := by omega
    have has : lexLt as bs = false := by
      rcases Bool.eq_false_or_eq_true (lexLt as bs) with h | h
      · exact absurd h (h1.2 he)
      · exact h
    have hbs : lexLt bs as = false := by
      rcases Bool.eq_false_or_eq_true (lexLt bs as) with h | h
      · exact absurd h (h2.2 he.symm)
      · exact h
    rw [charEq_of_toNat_eq he, lexLt_connex as bs has hbs]

theorem lexLe_cons_iff (a b : Char) (as bs : List Char) :
    lexLe (a :: as) (b :: bs) = true ↔
      a.toNat < b.toNat ∨ (a.toNat = b.toNat ∧ lexLe as bs = true) := by
  simp only [lexLe]
  by_cases h1 : a.toNat < b.toNat
  · simp [h1]
  · by_cases h2 : b.toNat < a.toNat
    · simp [h1, h2]; omega
    · simp [h1, h2]; omega

theorem lexLe_total : ∀ (a b : List Char), lexLe a b = true ∨ lexLe b a = true
  | [], _ => Or.inl rfl
  | _ :: _, [] => Or.inr rfl
  | a :: as, b :: bs => by
    rw [lexLe_cons_iff, lexLe_cons_iff]
    rcases Nat.lt_trichotomy a.toNat b.toNat with h | h | h
    · exact Or.inl (Or.inl h)
    · rcases lexLe_total as bs with h2 | h2
      · exact Or.inl (Or.inr ⟨h, h2⟩)
      · exact Or.inr (Or.inr ⟨h.symm, h2⟩)
    · exact Or.inr (Or.inl h)

theorem lexLe_trans : ∀ (a b c : List Char),
    lexLe a b = true → lexLe b c = true → lexLe a c = true
  | [], _, _, _, _ => by simp [lexLe]
  | _ :: _, [], _, hab, _ => by simp [lexLe] at hab
  | _ :: _, _ :: _, [], _, hbc => by simp [lexLe] at hbc
  | a :: as, b :: bs, c :: cs, hab, hbc => by
    rw [lexLe_cons_iff] at hab hbc ⊢
    rcases hab with h | ⟨he, hab⟩
    · rcases hbc with h2 | ⟨he2, _⟩
      · exact Or.inl (by omega)
      · exact Or.inl (by omega)
    · rcases hbc with h2 | ⟨he2, hbc⟩
      · exact Or.inl (by omega)
      · exact Or.inr ⟨by omega, lexLe_trans as bs cs hab hbc⟩

theorem stringEq_of_data_eq {a b : String} (h : a.data = b.data) : a = b :=
  String.ext h

theorem strLt_trans {a b c : String} (hab : strLt a b = true) (hbc : strLt b c = true) :
    strLt a c = true := lexLt_trans _ _ _ hab hbc

theorem strLt_connex {a b : String} (hab : strLt a b = false) (hba : strLt b a = false) :
    a = b := stringEq_of_data_eq (lexLt_connex _ _ hab hba)

instance : IsTotal String strLeP :=
  ⟨fun a b => lexLe_total a.data b.data⟩

instance : IsTrans String strLeP :=
  ⟨fun _ _ _ hab hbc => lexLe_trans _ _ _ hab hbc⟩

theorem valLt_trans {a b c : Val} (hab : valLt a b = true) (hbc : valLt b c = true) :
    valLt a c = true := by
  cases a <;> cases b <;> cases c <;> simp_all [valLt]
  exact strLt_trans hab hbc


theorem valEqv_symm {a b : Val} (h : valEqv a b = true) : valEqv b a = true := by
  cases a <;> cases b <;> simp_all [valEqv]

theorem valEqv_trans {a b c : Val} (hab : valEqv a b = true) (hbc : valEqv b c = true) :
    valEqv a c = true := by
  cases a <;> cases b <;> cases c <;> simp_all [valEqv]

theorem valLt_of_lt_of_eqv {a b c : Val} (hab : valLt a b = true) (hbc : valEqv b c = true) :
    valLt a c = true := by
  cases a <;> cases b <;> cases c <;> simp_all [valLt, valEqv]

theorem valLt_of_eqv_of_lt {a b c : Val} (hab : valEqv a b = true) (hbc : valLt b c = true) :
    valLt a c = true := by
  cases a <;> cases b <;> cases c <;> simp_all [valLt, valEqv]

theorem valLt_connex {a b : Val} (hab : valLt a b = false) (hba : valLt b a = false) :
    valEqv a b = true := by
  cases a <;> cases b <;> simp_all [valLt, valEqv]
  exact strLt_connex hab hba

theorem rowLe_total (a b : Operator) : rowLe a b = true ∨ rowLe b a = true := by
  simp only [rowLe, Bool.or_eq_true, Bool.and_eq_true]
  rcases Bool.eq_false_or_eq_true (valLt a.state b.state) with hs | hs
  · exact Or.inl (Or.inl hs)
  · rcases Bool.eq_false_or_eq_true (valLt b.state a.state) with hs2 | hs2
    · exact Or.inr (Or.inl hs2)
    · have hes := valLt_connex hs hs2
      rcases Bool.eq_false_or_eq_true (valLt a.city b.city) with hc | hc
      · exact Or.inl (Or.inr ⟨hes, Or.inl hc⟩)
      · rcases Bool.eq_false_or_eq_true (valLt b.city a.city) with hc2 | hc2
        · exact Or.inr (Or.inr ⟨valEqv_symm hes, Or.inl hc2⟩)
        · have hec := valLt_connex hc hc2
          rcases Bool.eq_false_or_eq_true (valLt a.callsign b.callsign) with hk | hk
          · exact Or.inl (Or.inr ⟨hes, Or.inr ⟨hec, Or.inl hk⟩⟩)
          · rcases Bool.eq_false_or_eq_true (valLt b.callsign a.callsign) with hk2 | hk2
            · exact Or.inr (Or.inr ⟨valEqv_symm hes, Or.inr ⟨valEqv_symm hec, Or.inl hk2⟩⟩)
            · exact Or.inl (Or.inr ⟨hes, Or.inr ⟨hec, Or.inr (valLt_connex hk hk2)⟩⟩)

theorem rowLe_trans {a b c : Operator} (hab : rowLe a b = true) (hbc : rowLe b c = true) :
    rowLe a c = true := by
  simp only [rowLe, Bool.or_eq_true, Bool.and_eq_true] at hab hbc ⊢
  rcases hab with hs | ⟨hes, hab⟩
  · rcases hbc with hs2 | ⟨hes2, _⟩
    · exact Or.inl (valLt_trans hs hs2)
    · exact Or.inl (valLt_of_lt_of_eqv hs hes2)
  · rcases hbc with hs2 | ⟨hes2, hbc⟩
    · exact Or.inl (valLt_of_eqv_of_lt hes hs2)
    · refine Or.inr ⟨valEqv_trans hes hes2, ?_⟩
      rcases hab with hc | ⟨hec, hab⟩
      · rcases hbc with hc2 | ⟨hec2, _⟩
        · exact Or.inl (valLt_trans hc hc2)
        · exact Or.inl (valLt_of_lt_of_eqv hc hec2)
      · rcases hbc with hc2 | ⟨hec2, hbc⟩
        · exact Or.inl (valLt_of_eqv_of_lt hec hc2)
        · refine Or.inr ⟨valEqv_trans hec hec2, ?_⟩
          rcases hab with hk | hk
          · rcases hbc with hk2 | hk2
            · exact Or.inl (valLt_trans hk hk2)
            · exact Or.inl (valLt_of_lt_of_eqv hk hk2)
          · rcases hbc with hk2 | hk2
            · exact Or.inl (valLt_of_eqv_of_lt hk hk2)
            · exact Or.inr (valEqv_trans hk hk2)

instance : IsTotal Operator rowLeP := ⟨rowLe_total⟩

instance : IsTrans Operator rowLeP := ⟨fun _ _ _ => rowLe_trans⟩

instance : IsTotal (List (String × Val)) frameRowLe :=
  ⟨fun a b => rowLe_total (recOf a) (recOf b)⟩

instance : IsTrans (List (String × Val)) frameRowLe :=
  ⟨fun _ _ _ => rowLe_trans⟩

instance : IsTotal (String × Nat) descCountLe := ⟨fun a b => Nat.le_total b.2 a.2⟩

instance : IsTrans (String × Nat) descCountLe :=
  ⟨fun _ _ _ hab hbc => Nat.le_trans hbc hab⟩

/-! Regex lemmas: a pattern of literal characters searches for a substring. -/

theorem rxFull_fail : ∀ l, rxFull Rx.fail l = false
  | [] => rfl
  | _ :: cs => rxFull_fail cs

theorem rxFull_eps : ∀ l, rxFull Rx.eps l = l.isEmpty
  | [] => rfl
  | _ :: cs => rxFull_fail cs

theorem rxFull_alt : ∀ (a b : Rx) (l : List Char),
    rxFull (Rx.alt a b) l = (rxFull a l || rxFull b l)
  | _, _, [] => rfl
  | a, b, c :: cs => rxFull_alt (rxDeriv a c) (rxDeriv b c) cs

theorem rxFull_seq_fail : ∀ (r : Rx) (l : List Char), rxFull (Rx.seq Rx.fail r) l = false
  | _, [] => rfl
  | r, _ :: cs => rxFull_seq_fail r cs

theorem rxFull_seq_eps : ∀ (r : Rx) (l : List Char), rxFull (Rx.seq Rx.eps r) l = rxFull r l
  | _, [] => by simp [rxFull, nullable]
  | r, c :: cs => by
    have hd : rxDeriv (Rx.seq Rx.eps r) c = Rx.alt (Rx.seq Rx.fail r) (rxDeriv r c) := rfl
    show rxFull (rxDeriv (Rx.seq Rx.eps r) c) cs = rxFull (rxDeriv r c) cs
    rw [hd, rxFull_alt, rxFull_seq_fail]
    simp

theorem rxFull_chr_seq (c : Char) (r : Rx) :
    ∀ l, (rxFull (Rx.seq (Rx.chr c) r) l = true ↔ ∃ l', l = c :: l' ∧ rxFull r l' = true)
  | [] => by simp [rxFull, nullable]
  | d :: ds => by
    have hd : rxDeriv (Rx.seq (Rx.chr c) r) d =
        Rx.seq (if d = c then Rx.eps else Rx.fail) r := rfl
    have hstep : rxFull (Rx.seq (Rx.chr c) r) (d :: ds) =
        rxFull (Rx.seq (if d = c then Rx.eps else Rx.fail) r) ds := by
      show rxFull (rxDeriv (Rx.seq (Rx.chr c) r) d) ds = _
      rw [hd]
    rw [hstep]
    by_cases h : d = c
    · subst h
      rw [if_pos rfl, rxFull_seq_eps]
      constructor
      · intro hf; exact ⟨ds, rfl, hf⟩
      · rintro ⟨l', he, hf⟩
        cases he
        exact hf
    · rw [if_neg h, rxFull_seq_fail]
      constructor
      · intro hf; cases hf
      · rintro ⟨l', he, _⟩
        cases he
        exact absurd rfl h

theorem rxFull_lit : ∀ (m l : List Char), (rxFull (litRx m) l = true ↔ l = m)
  | [], l => by
    simp only [litRx, List.foldr_nil, rxFull_eps]
    cases l <;> simp
  | c :: ms, l => by
    have hl : litRx (c :: ms) = Rx.seq (Rx.chr c) (litRx ms) := rfl
    rw [hl, rxFull_chr_seq]
    constructor
    · rintro ⟨l', he, hf⟩
      rw [(rxFull_lit ms l').1 hf] at he
      exact he
    · intro he
      subst he
      exact ⟨ms, rfl, (rxFull_lit ms ms).2 rfl⟩

theorem rxSearch_iff (r : Rx) (l : List Char) :
    rxSearch r l = true ↔ ∃ t, t <:+ l ∧ ∃ p, p <+: t ∧ rxFull r p = true := by
  simp only [rxSearch, List.any_eq_true]
  constructor
  · rintro ⟨t, ht, p, hp, hf⟩
    exact ⟨t, (List.mem_tails _ _).1 ht, p, (List.mem_inits _ _).1 hp, hf⟩
  · rintro ⟨t, ht, p, hp, hf⟩
    exact ⟨t, (List.mem_tails _ _).2 ht, p, (List.mem_inits _ _).2 hp, hf⟩

theorem rxSearch_lit (m l : List Char) : rxSearch (litRx m) l = true ↔ m <:+: l := by
  rw [rxSearch_iff]
  constructor
  · rintro ⟨t, ⟨s, hs⟩, p, ⟨u, hu⟩, hf⟩
    rw [(rxFull_lit m p).1 hf] at hu
    exact ⟨s, u, by rw [← hs, ← hu, List.append_assoc]⟩
  · rintro ⟨s, u, hsu⟩
    refine ⟨m ++ u, ⟨s, by rw [← hsu, List.append_assoc]⟩, m, ⟨u, rfl⟩, (rxFull_lit m m).2 rfl⟩

/-! Parser lemmas: a pattern free of special characters compiles to the
literal regex of its characters. -/

theorem noMeta_mem {l : List Char} (h : noMeta l = true) {c : Char} (hc : c ∈ l) :
    c ∉ metaChars := by
  simp only [noMeta, List.all_eq_true] at h
  exact of_decide_eq_true (h c hc)

theorem parsePost_noMeta {cs : List Char} (h : noMeta cs = true) (r : Rx) :
    parsePost r cs = (r, cs) := by
  cases cs with
  | nil => rfl
  | cons d ds =>
    have hd : d ∉ metaChars := noMeta_mem h (List.mem_cons_self _ _)
    have h1 : ¬ (d = '*' ∨ d = '+' ∨ d = '?') := by
      rintro (e | e | e) <;> subst e <;> exact hd (by decide)
    simp [parsePost, h1]

theorem parseAtom_lit (fuel : Nat) {c : Char} (cs : List Char) (h : c ∉ metaChars) :
    parseAtom (fuel + 1) (c :: cs) = .ok (.chr c, cs) := by
  have h1 : ¬ c = '(' := fun e => h (by rw [e]; decide)
  have h2 : ¬ c = '.' := fun e => h (by rw [e]; decide)
  have h3 : ¬ c = '\\' := fun e => h (by rw [e]; decide)
  have h4 : ¬ (c = '*' ∨ c = '+' ∨ c = '?') := by
    rintro (e | e | e) <;> subst e <;> exact h (by decide)
  have h5 : ¬ (c = '^' ∨ c = '$' ∨ c = '[' ∨ c = '\x7b') := by
    rintro (e | e | e | e) <;> subst e <;> exact h (by decide)
  simp [parseAtom, h1, h2, h3, h4, h5]

theorem exceptOkBind {ε α β : Type} (a : α) (f : α → Except ε β) :
    (Except.ok a >>= f : Except ε β) = f a := rfl

theorem parseCat_lit : ∀ (l : List Char) (fuel : Nat), noMeta l = true →
    l.length + 1 ≤ fuel → parseCat fuel l = .ok (litRx l, [])
  | [], fuel, _, hf => by
    cases fuel with
    | zero => omega
    | succ f => simp [parseCat, litRx]
  | c :: cs, fuel, h, hf => by
    have hc : c ∉ metaChars := noMeta_mem h (List.mem_cons_self _ _)
    have hcs : noMeta cs = true := by
      simp only [noMeta, List.all_eq_true] at h ⊢
      exact fun x hx => h x (List.mem_cons_of_mem _ hx)
    have hlen : (c :: cs).length = cs.length + 1 := List.length_cons _ _
    cases fuel with
    | zero => omega
    | succ f =>
      cases f with
      | zero => omega
      | succ g =>
        have hcond : ¬ (c = ')' ∨ c = '|') := by
          rintro (e | e) <;> subst e <;> exact hc (by decide)
        have hatom := parseAtom_lit g cs hc
        have hpost := parsePost_noMeta hcs (Rx.chr c)
        have hrec : parseCat (g + 1) cs = .ok (litRx cs, []) :=
          parseCat_lit cs (g + 1) hcs (by omega)
        show parseCat (g + 1 + 1) (c :: cs) = .ok (litRx (c :: cs), [])
        unfold parseCat
        rw [if_neg hcond, hatom, exceptOkBind]
        simp only [hpost, hrec, exceptOkBind]
        rfl

theorem parseAlt_of_parseCat (fuel : Nat) (cs : List Char) (r : Rx)
    (h : parseCat fuel cs = .ok (r, [])) : parseAlt (fuel + 1) cs = .ok (r, []) := by
  unfold parseAlt
  rw [h, exceptOkBind]

theorem reCompile_lit (s : String) (h : noMeta s.data = true) :
    reCompile s = .ok (litRx s.data) := by
  have hcat := parseCat_lit s.data (3 * s.data.length + 3) h (by omega)
  have halt := parseAlt_of_parseCat _ _ _ hcat
  unfold reCompile
  rw [(by omega : 3 * s.data.length + 4 = 3 * s.data.length + 3 + 1), halt]

/-! Closed form of the normalization pipeline (lines 19-31). -/

/-- The cell the frame holds for record `r` in column `c` just after column
synthesis: a looked-up value (NaN when the key is absent from the record) for
payload columns, `None` for synthesized ones. -/
def rawVal (ks : List String) (r : Rec0) (c : String) : Val :=
  if c ∈ ks then
    (match List.lookup c r with
     | some v => v
     | none => Val.nan)
  else Val.null

/-- The per-column normalization of lines 26-28 as one function. -/
def colTrans (c : String) (v : Val) : Val :=
  if c = "state" then Val.str (pyStrip (valToStr (fillNA v "Sin Región")))
  else if c = "city" then Val.str (pyStrip (valToStr (fillNA v "Sin Ciudad")))
  else if c = "callsign" then Val.str (pyUpper (valToStr v))
  else v

/-- Columns of the normalized frame: payload keys in first-seen order, then
the expected columns the payload lacks. -/
def normCols (p : List Rec0) : List String :=
  firstSeenKeys p ++ expectedCols.filter (fun c => decide (c ∉ firstSeenKeys p))

/-- The normalized row of one payload record (before sorting). -/
def normRowFun (p : List Rec0) (r : Rec0) : List (String × Val) :=
  (normCols p).map (fun c => (c, colTrans c (rawVal (firstSeenKeys p) r c)))

theorem ensureColumns_tabular {α : Type} : ∀ (names : List String), names.Nodup →
    ∀ (v : Val) (L : List String) (p : List α) (g : α → String → Val),
    ensureColumns names v
      { cols := L, rows := p.map (fun r => L.map (fun c => (c, g r c))) } =
    { cols := L ++ names.filter (fun c => decide (c ∉ L)),
      rows := p.map (fun r =>
        (L ++ names.filter (fun c => decide (c ∉ L))).map
          (fun c => (c, if c ∈ L then g r c else v))) }
  | [], _, v, L, p, g => by
    simp only [ensureColumns, List.foldl_nil, List.filter_nil, List.append_nil]
    congr 1
    apply List.map_congr_left
    intro r _
    apply List.map_congr_left
    intro c hc
    simp [hc]
  | n :: ns, hnd, v, L, p, g => by
    have hn_ns : n ∉ ns := (List.nodup_cons.1 hnd).1
    have hnd' : ns.Nodup := (List.nodup_cons.1 hnd).2
    have hfold : ensureColumns (n :: ns) v
        { cols := L, rows := p.map (fun r => L.map (fun c => (c, g r c))) } =
        ensureColumns ns v (addMissingCol v
          { cols := L, rows := p.map (fun r => L.map (fun c => (c, g r c))) } n) := rfl
    by_cases hn : n ∈ L
    · rw [hfold]
      have hid : addMissingCol v
          { cols := L, rows := p.map (fun r => L.map (fun c => (c, g r c))) } n =
          { cols := L, rows := p.map (fun r => L.map (fun c => (c, g r c))) } := by
        simp [addMissingCol, hn]
      rw [hid, ensureColumns_tabular ns hnd' v L p g]
      have hfe : List.filter (fun c => decide (c ∉ L)) (n :: ns) =
          List.filter (fun c => decide (c ∉ L)) ns := by
        rw [List.filter_cons, if_neg (by simp [hn])]
      rw [hfe]
    · rw [hfold]
      have hadd : addMissingCol v
          { cols := L, rows := p.map (fun r => L.map (fun c => (c, g r c))) } n =
          { cols := L ++ [n],
            rows := p.map (fun r => (L ++ [n]).map
              (fun c => (c, if c ∈ L then g r c else v))) } := by
        unfold addMissingCol
        rw [if_neg hn]
        congr 1
        show (p.map (fun r => L.map (fun c => (c, g r c)))).map
            (fun row => row ++ [(n, v)]) =
          p.map (fun r => (L ++ [n]).map (fun c => (c, if c ∈ L then g r c else v)))
        rw [List.map_map]
        apply List.map_congr_left
        intro r _
        simp only [Function.comp_apply, List.map_append, List.map_cons, List.map_nil]
        congr 1
        · apply List.map_congr_left
          intro c hc
          simp [hc]
        · simp [hn]
      rw [hadd, ensureColumns_tabular ns hnd' v (L ++ [n]) p
        (fun r c => if c ∈ L then g r c else v)]
      have hfcong : List.filter (fun c => decide (c ∉ L ++ [n])) ns =
          List.filter (fun c => decide (c ∉ L)) ns := by
        apply List.filter_congr
        intro x hx
        have hxn : x ≠ n := fun e => hn_ns (e ▸ hx)
        rw [decide_eq_decide]
        simp [List.mem_append, hxn]
      have hcols : (L ++ [n]) ++ List.filter (fun c => decide (c ∉ L ++ [n])) ns =
          L ++ List.filter (fun c => decide (c ∉ L)) (n :: ns) := by
        rw [List.filter_cons, if_pos (by simp [hn]), hfcong, List.append_assoc]
        rfl
      rw [hcols]
      congr 1
      apply List.map_congr_left
      intro r _
      apply List.map_congr_left
      intro c _
      by_cases hcL : c ∈ L
      · simp [hcL, List.mem_append]
      · simp [hcL, List.mem_append]

theorem lookup_map_self (L : List String) (h : String → Val) (a : String) :
    List.lookup a (L.map (fun c => (c, h c))) =
      if a ∈ L then some (h a) else none := by
  induction L with
  | nil => simp
  | cons c cs ih =>
    simp only [List.map_cons, List.lookup_cons]
    by_cases hac : a = c
    · subst hac
      simp
    · have hbeq : (a == c) = false := by simp [hac]
      simp [hbeq, hac, ih]

theorem getVal_map_self (L : List String) (h : String → Val) (a : String) :
    getVal (L.map (fun c => (c, h c))) a = if a ∈ L then h a else Val.nan := by
  rw [getVal, lookup_map_self]
  by_cases ha : a ∈ L <;> simp [ha]

theorem mapCol_tabular {α : Type} (name : String) (tr : Val → Val) (C : List String)
    (p : List α) (g : α → String → Val) :
    mapCol { cols := C, rows := p.map (fun r => C.map (fun c => (c, g r c))) } name tr =
    { cols := C, rows := p.map (fun r => C.map (fun c =>
        (c, if c = name then tr (g r c) else g r c))) } := by
  unfold mapCol
  congr 1
  rw [List.map_map]
  apply List.map_congr_left
  intro r _
  simp only [Function.comp_apply]
  rw [List.map_map]
  apply List.map_congr_left
  intro c _
  by_cases hc : c = name
  · simp [hc]
  · simp [hc]

theorem sortFrame_mk (C : List String) (R : List (List (String × Val))) :
    sortFrame { cols := C, rows := R } =
      { cols := C, rows := List.insertionSort frameRowLe R } := rfl

theorem normFrame_eq (p : List Rec0) :
    normFrame p =
      { cols := normCols p,
        rows := List.insertionSort frameRowLe (p.map (normRowFun p)) } := by
  unfold normFrame
  have h0 : mkFrame p =
      { cols := firstSeenKeys p,
        rows := p.map (fun r => (firstSeenKeys p).map (fun c => (c,
          match List.lookup c r with
          | some v => v
          | none => Val.nan))) } := rfl
  rw [h0]
  rw [ensureColumns_tabular expectedCols (by decide) Val.null (firstSeenKeys p) p
    (fun r c => match List.lookup c r with
      | some v => v
      | none => Val.nan)]
  rw [mapCol_tabular "state" (fun v => Val.str (pyStrip (valToStr (fillNA v "Sin Región"))))
    (firstSeenKeys p ++ expectedCols.filter (fun c => decide (c ∉ firstSeenKeys p))) p
    (fun r c => if c ∈ firstSeenKeys p then
      (match List.lookup c r with
       | some v => v
       | none => Val.nan)
      else Val.null)]
  rw [mapCol_tabular "city" (fun v => Val.str (pyStrip (valToStr (fillNA v "Sin Ciudad"))))
    (firstSeenKeys p ++ expectedCols.filter (fun c => decide (c ∉ firstSeenKeys p))) p _]
  rw [mapCol_tabular "callsign" (fun v => Val.str (pyUpper (valToStr v)))
    (firstSeenKeys p ++ expectedCols.filter (fun c => decide (c ∉ firstSeenKeys p))) p _]
  rw [sortFrame_mk]
  congr 1
  congr 1
  apply List.map_congr_left
  intro r _
  unfold normRowFun normCols
  apply List.map_congr_left
  intro c _
  by_cases hs : c = "state"
  · subst hs
    simp [colTrans, rawVal, show ("state" : String) ≠ "city" by decide,
      show ("state" : String) ≠ "callsign" by decide]
  · by_cases hc : c = "city"
    · subst hc
      simp [colTrans, rawVal, show ("city" : String) ≠ "state" by decide,
        show ("city" : String) ≠ "callsign" by decide]
    · by_cases hk : c = "callsign"
      · subst hk
        simp [colTrans, rawVal, show ("callsign" : String) ≠ "state" by decide,
          show ("callsign" : String) ≠ "city" by decide]
      · simp [colTrans, rawVal, hs, hc, hk]

theorem normFrame_cols (p : List Rec0) : (normFrame p).cols = normCols p := by
  rw [normFrame_eq]

theorem normFrame_rows_perm (p : List Rec0) :
    (normFrame p).rows.Perm (p.map (normRowFun p)) := by
  rw [normFrame_eq]
  exact List.perm_insertionSort _ _

theorem mem_normFrame_rows {p : List Rec0} {row : List (String × Val)} :
    row ∈ (normFrame p).rows ↔ ∃ r ∈ p, row = normRowFun p r := by
  rw [(normFrame_rows_perm p).mem_iff, List.mem_map]
  constructor
  · rintro ⟨r, hr, he⟩
    exact ⟨r, hr, he.symm⟩
  · rintro ⟨r, hr, he⟩
    exact ⟨r, hr, he.symm⟩

theorem mem_normCols_of_expected {p : List Rec0} {c : String} (hc : c ∈ expectedCols) :
    c ∈ normCols p := by
  by_cases h : c ∈ firstSeenKeys p
  · exact List.mem_append.2 (Or.inl h)
  · exact List.mem_append.2 (Or.inr (List.mem_filter.2 ⟨hc, by simp [h]⟩))

theorem getVal_normRowFun (p : List Rec0) (r : Rec0) (c : String) (hc : c ∈ normCols p) :
    getVal (normRowFun p r) c = colTrans c (rawVal (firstSeenKeys p) r c) := by
  unfold normRowFun
  rw [getVal_map_self, if_pos hc]

theorem mem_addNewKeys (ks : List String) : ∀ (acc : List String) (x : String),
    (x ∈ addNewKeys acc ks ↔ x ∈ acc ∨ x ∈ ks) := by
  induction ks with
  | nil => intro acc x; simp [addNewKeys]
  | cons k ks ih =>
    intro acc x
    show x ∈ addNewKeys (if k ∈ acc then acc else acc ++ [k]) ks ↔ _
    rw [ih]
    by_cases hk : k ∈ acc
    · rw [if_pos hk]
      simp only [List.mem_cons]
      constructor
      · rintro (h | h)
        · exact Or.inl h
        · exact Or.inr (Or.inr h)
      · rintro (h | h | h)
        · exact Or.inl h
        · exact Or.inl (h ▸ hk)
        · exact Or.inr h
    · rw [if_neg hk]
      simp only [List.mem_append, List.mem_cons, List.not_mem_nil, or_false]
      constructor
      · rintro ((h | h) | h)
        · exact Or.inl h
        · exact Or.inr (Or.inl h)
        · exact Or.inr (Or.inr h)
      · rintro (h | h | h)
        · exact Or.inl (Or.inl h)
        · exact Or.inl (Or.inr h)
        · exact Or.inr h

theorem mem_firstSeenKeys (p : List Rec0) (x : String) :
    x ∈ firstSeenKeys p ↔ ∃ r ∈ p, x ∈ r.map Prod.fst := by
  suffices h : ∀ acc, x ∈ p.foldl (fun a r => addNewKeys a (r.map Prod.fst)) acc ↔
      x ∈ acc ∨ ∃ r ∈ p, x ∈ r.map Prod.fst by
    simpa [firstSeenKeys] using h []
  induction p with
  | nil => intro acc; simp
  | cons r rs ih =>
    intro acc
    rw [List.foldl_cons, ih, mem_addNewKeys]
    constructor
    · rintro ((h | h) | ⟨r', hr', h⟩)
      · exact Or.inl h
      · exact Or.inr ⟨r, List.mem_cons_self _ _, h⟩
      · exact Or.inr ⟨r', List.mem_cons_of_mem _ hr', h⟩
    · rintro (h | ⟨r', hr', h⟩)
      · exact Or.inl (Or.inl h)
      · rcases List.mem_cons.1 hr' with he | hm
        · exact Or.inl (Or.inr (he ▸ h))
        · exact Or.inr ⟨r', hm, h⟩

/-! Concrete rows and payloads used by counterexamples and witnesses. -/

/-- A fully populated row (uppercase callsign, as normalization produces). -/
def opA : Operator :=
  { state := .str "X", city := .str "Y", callsign := .str "AB",
    radio_id := .str "1", fname := .str "F", lname := .str "L", last_seen := .str "T" }

/-- A row whose `state` is missing (NaN), as a raw frame could hold. -/
def opN : Operator :=
  { state := .nan, city := .str "Y", callsign := .str "AB",
    radio_id := .str "1", fname := .str "F", lname := .str "L", last_seen := .str "T" }

theorem rxSearch_lit_eq (m l : List Char) :
    rxSearch (litRx m) l = decide (m <:+: l) := by
  rcases Bool.eq_false_or_eq_true (rxSearch (litRx m) l) with h | h
  · rw [h, decide_eq_true ((rxSearch_lit m l).1 h)]
  · rw [h]
    have hnot : ¬ (m <:+: l) := fun hc => by
      have h2 := (rxSearch_lit m l).2 hc
      rw [h] at h2
      exact Bool.false_ne_true h2
    rw [decide_eq_false hnot]

/-- C1 counterexample: an HTTP 200 response whose body is valid JSON but not
an object (a top-level array, say) makes `js.get("results", [])` raise
`AttributeError`, which `except requests.exceptions.RequestException` does
not catch: the exception escapes the pipeline boundary instead of resolving
to an empty table plus a message. -/
theorem C1_counterexample :
    fetch_data FetchOutcome.jsonNonObject =
      Except.error (PyExn.attributeError "object has no attribute get") ∧
    (fetch_data FetchOutcome.jsonNonObject).isOk = false :=
  ⟨rfl, rfl⟩

/-- C1 (amended): each of the four enumerated fetch failures — network error,
timeout, non-2xx HTTP status (via `raise_for_status`), and a body that fails
to decode as JSON (`requests.exceptions.JSONDecodeError`, a `RequestException`
subclass in requests ≥ 2.27) — is caught by `fetch_data`, which returns the
empty frame and surfaces exactly one non-empty user-visible error message; a
decoded payload that is not a JSON object, however, escapes as an uncaught
exception. -/
theorem C1_fetch_failure_recovered (m : String) :
    fetch_data (.connectionError m) =
      .ok (emptyFrame, ["Error consultando la API: " ++ m]) ∧
    fetch_data (.timeout m) =
      .ok (emptyFrame, ["Error consultando la API: " ++ m]) ∧
    fetch_data (.httpError m) =
      .ok (emptyFrame, ["Error consultando la API: " ++ m]) ∧
    fetch_data (.jsonDecodeError m) =
      .ok (emptyFrame, ["Error consultando la API: " ++ m]) ∧
    "Error consultando la API: " ++ m ≠ "" := by
  refine ⟨rfl, rfl, rfl, rfl, ?_⟩
  intro h
  have hlen := congrArg String.length h
  rw [String.length_append] at hlen
  have h26 : "Error consultando la API: ".length = 26 := rfl
  have h0 : "".length = 0 := rfl
  rw [h26, h0] at hlen
  omega

/-- C3 counterexample: the query `"("` (after strip/uppercase still `"("`) is
compiled as a regular expression by `Series.str.contains`; compilation raises
`re.error` (an unterminated subpattern), so the filter pipeline fails instead
of returning a table. -/
theorem C3_counterexample :
    filterPipeline [opA] ["X"] [] "(" =
      .error "missing ), unterminated subpattern" ∧
    (filterPipeline [opA] ["X"] [] "(").isOk = false :=
  ⟨rfl, rfl⟩

/-- C3 (amended): the filter pipeline is a pure total function for every
table, region set, city set, and every query whose stripped, uppercased form
is either blank or compiles as a regular expression; a query that does not
compile (such as `"("`) raises `re.error` instead of returning a table. -/
theorem C3_total_for_valid_queries (T : Table) (regions cities : List String)
    (q : String)
    (h : pyUpper (pyStrip q) = "" ∨ (reCompile (pyUpper (pyStrip q))).isOk = true) :
    ∃ out : Table, filterPipeline T regions cities q = .ok out := by
  unfold filterPipeline textStage
  by_cases hq : pyUpper (pyStrip q) = ""
  · rw [if_pos hq]
    exact ⟨_, rfl⟩
  · rw [if_neg hq]
    rcases h with h | h
    · exact absurd h hq
    · cases hre : reCompile (pyUpper (pyStrip q)) with
      | error e =>
        rw [hre] at h
        simp [Except.isOk, Except.toBool] at h
      | ok rx =>
        exact ⟨_, rfl⟩

/-- C3 witness: a concrete valid query on a concrete table. -/
theorem C3_witness : ∃ out : Table, filterPipeline [opA] ["X"] [] "AB" = .ok out :=
  C3_total_for_valid_queries [opA] ["X"] [] "AB" (Or.inr (by decide))

/-! Lemmas about `uniqueFS` (pandas `Series.unique`). -/

theorem uniqueFS_eq_addNewKeys (l : List String) : uniqueFS l = addNewKeys [] l := rfl

theorem mem_uniqueFS {l : List String} {x : String} : x ∈ uniqueFS l ↔ x ∈ l := by
  rw [uniqueFS_eq_addNewKeys, mem_addNewKeys]
  simp

theorem nodup_addNewKeys : ∀ (ks acc : List String), acc.Nodup → (addNewKeys acc ks).Nodup
  | [], _, h => h
  | k :: ks, acc, h => by
    show (addNewKeys (if k ∈ acc then acc else acc ++ [k]) ks).Nodup
    apply nodup_addNewKeys
    by_cases hk : k ∈ acc
    · rwa [if_pos hk]
    · rw [if_neg hk]
      rw [List.nodup_append]
      exact ⟨h, List.nodup_singleton k, fun a ha hm => hk ((List.mem_singleton.1 hm) ▸ ha)⟩

theorem nodup_uniqueFS (l : List String) : (uniqueFS l).Nodup :=
  nodup_addNewKeys l [] List.nodup_nil

/-- C9: `counts_region` lists, for each distinct non-missing `state` value of
the table, its occurrence count, in an order sorted by count descending; on
the empty table it is empty. -/
theorem C9_counts_region_correct (T : Table) :
    List.Sorted descCountLe (counts_region T) ∧
    (∀ pr ∈ counts_region T,
      pr.2 = (stateStrs T).count pr.1 ∧ pr.1 ∈ stateStrs T) ∧
    (∀ s ∈ stateStrs T, (s, (stateStrs T).count s) ∈ counts_region T) ∧
    ((counts_region T).map Prod.fst).Nodup ∧
    (T = [] → counts_region T = []) := by
  have hperm : (counts_region T).Perm
      ((uniqueFS (stateStrs T)).map (fun s => (s, (stateStrs T).count s))) :=
    List.perm_insertionSort _ _
  refine ⟨List.sorted_insertionSort _ _, ?_, ?_, ?_, ?_⟩
  · intro pr hpr
    rcases List.mem_map.1 (hperm.mem_iff.1 hpr) with ⟨s, hs, he⟩
    rw [← he]
    exact ⟨rfl, mem_uniqueFS.1 hs⟩
  · intro s hs
    exact hperm.mem_iff.2 (List.mem_map.2 ⟨s, mem_uniqueFS.2 hs, rfl⟩)
  · have hmm : (((uniqueFS (stateStrs T)).map
        (fun s => (s, (stateStrs T).count s))).map Prod.fst) = uniqueFS (stateStrs T) := by
      rw [List.map_map]
      exact List.map_id _
    rw [(hperm.map Prod.fst).nodup_iff, hmm]
    exact nodup_uniqueFS _
  · intro h
    subst h
    rfl

/-- Rows for the spec's aggregation example. -/
def opA9 : Operator :=
  { state := .str "A", city := .null, callsign := .null,
    radio_id := .null, fname := .null, lname := .null, last_seen := .null }

/-- Row with state B for the aggregation example. -/
def opB9 : Operator :=
  { state := .str "B", city := .null, callsign := .null,
    radio_id := .null, fname := .null, lname := .null, last_seen := .null }

/-- C9 witness: the spec's aggregation example `[{state:A},{state:A},{state:B}]`. -/
theorem C9_witness :
    ((("A", 2) : String × Nat).2 =
        (stateStrs [opA9, opA9, opB9]).count (("A", 2) : String × Nat).1 ∧
      (("A", 2) : String × Nat).1 ∈ stateStrs [opA9, opA9, opB9]) ∧
    counts_region [opA9, opA9, opB9] = [("A", 2), ("B", 1)] :=
  ⟨(C9_counts_region_correct [opA9, opA9, opB9]).2.1 ("A", 2) (by decide), by decide⟩

/-- Modelled from the spec's words, for comparison with the code (C4): "the
text filter keeps exactly the rows where the query occurs as a
case-insensitive substring of at least one of the five fields callsign,
fname, lname, city, state" — i.e. uppercase both sides and test substring
containment, OR over the five fields. -/
def specSubstrMatch (q : String) (r : Operator) : Bool :=
  decide ((pyUpper q).data <:+: (pyUpper (valToStr r.callsign)).data) ||
  decide ((pyUpper q).data <:+: (pyUpper (valToStr r.fname)).data) ||
  decide ((pyUpper q).data <:+: (pyUpper (valToStr r.lname)).data) ||
  decide ((pyUpper q).data <:+: (pyUpper (valToStr r.city)).data) ||
  decide ((pyUpper q).data <:+: (pyUpper (valToStr r.state)).data)

/-- C4 counterexample: the non-blank query `"."` is not a substring of any
field of the concrete row (callsign `"AB"`, fname `"F"`, lname `"L"`, city
`"Y"`, state `"X"`), so the claim says the row is dropped — but
`str.contains` treats `"."` as a regular expression matching any character,
and the pipeline keeps the row. -/
theorem C4_counterexample :
    filterPipeline [opA] ["X"] [] "." = .ok [opA] ∧
    specSubstrMatch "." opA = false :=
  ⟨rfl, by decide⟩

/-- C4 (amended): a blank query keeps every row; a non-blank query is
matched as a regular expression, not as a literal substring.  For queries
free of regex metacharacters the filter keeps exactly the rows where the
stripped uppercased query occurs as a substring of `str(callsign)` as stored
(uppercase after normalization, so case-insensitive in effect) or of the
uppercased `str` of fname, lname, city or state (missing values reading as
the text `"None"`/`"nan"`), OR semantics over the five fields. -/
theorem C4_text_filter (T : Table) (q : String) :
    (pyUpper (pyStrip q) = "" → textStage T q = .ok T) ∧
    (pyUpper (pyStrip q) ≠ "" → noMeta (pyUpper (pyStrip q)).data = true →
      textStage T q = .ok (T.filter (fun r =>
        decide ((pyUpper (pyStrip q)).data <:+: (valToStr r.callsign).data) ||
        decide ((pyUpper (pyStrip q)).data <:+: (pyUpper (valToStr r.fname)).data) ||
        decide ((pyUpper (pyStrip q)).data <:+: (pyUpper (valToStr r.lname)).data) ||
        decide ((pyUpper (pyStrip q)).data <:+: (pyUpper (valToStr r.city)).data) ||
        decide ((pyUpper (pyStrip q)).data <:+: (pyUpper (valToStr r.state)).data)))) := by
  constructor
  · intro h
    unfold textStage
    rw [if_pos h]
  · intro hne hmeta
    unfold textStage
    rw [if_neg hne, reCompile_lit _ hmeta]
    have hfun : maskPred (litRx (pyUpper (pyStrip q)).data) = fun r =>
        decide ((pyUpper (pyStrip q)).data <:+: (valToStr r.callsign).data) ||
        decide ((pyUpper (pyStrip q)).data <:+: (pyUpper (valToStr r.fname)).data) ||
        decide ((pyUpper (pyStrip q)).data <:+: (pyUpper (valToStr r.lname)).data) ||
        decide ((pyUpper (pyStrip q)).data <:+: (pyUpper (valToStr r.city)).data) ||
        decide ((pyUpper (pyStrip q)).data <:+: (pyUpper (valToStr r.state)).data) := by
      funext r
      unfold maskPred rxSearchS
      rw [rxSearch_lit_eq, rxSearch_lit_eq, rxSearch_lit_eq, rxSearch_lit_eq,
        rxSearch_lit_eq]
    show Except.ok (T.filter (maskPred (litRx (pyUpper (pyStrip q)).data))) = _
    rw [hfun]

/-- C4 witness: the blank-query case and one literal query on a concrete row. -/
theorem C4_witness :
    textStage [opA] "  " = .ok [opA] ∧
    textStage [opA] "AB" = .ok (([opA] : Table).filter (fun r =>
      decide ((pyUpper (pyStrip "AB")).data <:+: (valToStr r.callsign).data) ||
      decide ((pyUpper (pyStrip "AB")).data <:+: (pyUpper (valToStr r.fname)).data) ||
      decide ((pyUpper (pyStrip "AB")).data <:+: (pyUpper (valToStr r.lname)).data) ||
      decide ((pyUpper (pyStrip "AB")).data <:+: (pyUpper (valToStr r.city)).data) ||
      decide ((pyUpper (pyStrip "AB")).data <:+: (pyUpper (valToStr r.state)).data))) :=
  ⟨(C4_text_filter [opA] "  ").1 (by decide),
   (C4_text_filter [opA] "AB").2 (by decide) (by decide)⟩

/-- C6: after normalization no row has a missing `state` or `city` (both are
always string cells), and any record whose raw `state`/`city` cell is
missing — a JSON null, an absent key, or a wholly absent column — receives
the respective sentinel `"Sin Región"`/`"Sin Ciudad"`; every payload record
contributes its normalized row to the output table. -/
theorem C6_state_city_sentinels (p : List Rec0) :
    (∀ row ∈ (normFrame p).rows,
      (getVal row "state").isNA = false ∧ (getVal row "city").isNA = false) ∧
    (∀ r ∈ p, (rawVal (firstSeenKeys p) r "state").isNA = true →
      getVal (normRowFun p r) "state" = Val.str "Sin Región") ∧
    (∀ r ∈ p, (rawVal (firstSeenKeys p) r "city").isNA = true →
      getVal (normRowFun p r) "city" = Val.str "Sin Ciudad") ∧
    (∀ r ∈ p, normRowFun p r ∈ (normFrame p).rows) := by
  have hgs : ∀ r : Rec0, getVal (normRowFun p r) "state" =
      colTrans "state" (rawVal (firstSeenKeys p) r "state") := fun r =>
    getVal_normRowFun p r "state" (mem_normCols_of_expected (by decide))
  have hgc : ∀ r : Rec0, getVal (normRowFun p r) "city" =
      colTrans "city" (rawVal (firstSeenKeys p) r "city") := fun r =>
    getVal_normRowFun p r "city" (mem_normCols_of_expected (by decide))
  refine ⟨?_, ?_, ?_, fun r hr => mem_normFrame_rows.2 ⟨r, hr, rfl⟩⟩
  · intro row hrow
    rcases mem_normFrame_rows.1 hrow with ⟨r, _, he⟩
    subst he
    rw [hgs, hgc]
    constructor
    · simp [colTrans, Val.isNA]
    · simp [colTrans, Val.isNA, show ("city" : String) ≠ "state" by decide]
  · intro r _ hna
    rw [hgs]
    have hfill : fillNA (rawVal (firstSeenKeys p) r "state") "Sin Región" =
        Val.str "Sin Región" := by
      unfold fillNA
      rw [if_pos hna]
    simp only [colTrans, hfill, eq_self_iff_true, if_true]
    decide
  · intro r _ hna
    rw [hgc]
    have hfill : fillNA (rawVal (firstSeenKeys p) r "city") "Sin Ciudad" =
        Val.str "Sin Ciudad" := by
      unfold fillNA
      rw [if_pos hna]
    have hcs : (("city" : String) = "state") = False := by
      simp [show ("city" : String) ≠ "state" by decide]
    simp only [colTrans, hfill, hcs, eq_self_iff_true, if_true, if_false]
    decide

/-- Payload for the C6 witness: one record whose state is JSON null and
whose city key is absent. -/
def p6 : List Rec0 := [[("state", Val.null)]]

/-- C6 witness: the theorem applied to the concrete payload `p6`. -/
theorem C6_witness :
    ((getVal (normRowFun p6 [("state", Val.null)]) "state").isNA = false ∧
      (getVal (normRowFun p6 [("state", Val.null)]) "city").isNA = false) ∧
    getVal (normRowFun p6 [("state", Val.null)]) "state" = Val.str "Sin Región" ∧
    getVal (normRowFun p6 [("state", Val.null)]) "city" = Val.str "Sin Ciudad" :=
  ⟨(C6_state_city_sentinels p6).1 (normRowFun p6 [("state", Val.null)])
      ((C6_state_city_sentinels p6).2.2.2 [("state", Val.null)] (by decide)),
   (C6_state_city_sentinels p6).2.1 [("state", Val.null)] (by decide) (by decide),
   (C6_state_city_sentinels p6).2.2.1 [("state", Val.null)] (by decide) (by decide)⟩

/-- C5 counterexample: for the payload `[{radio_id: "7"}]` the column `state`
is absent from the payload and synthesized — but in the normalized table it
is not "entirely null": sentinel substitution fills it with `"Sin Región"`. -/
theorem C5_counterexample :
    ("state" ∉ firstSeenKeys [[("radio_id", Val.str "7")]]) ∧
    (normFrame [[("radio_id", Val.str "7")]]).rows.map
        (fun row => getVal row "state") = [Val.str "Sin Región"] ∧
    (Val.str "Sin Región").isNA = false := by
  refine ⟨by decide, by decide, rfl⟩

/-- C5 (amended): every expected column is present in the normalized table;
a column absent from the payload is synthesized as all-null and, unless it
is `state` or `city` (sentinel-filled) or `callsign` (rendered `"NONE"`),
it stays entirely null in the normalized output. -/
theorem C5_absent_columns (p : List Rec0) (c : String) (hc : c ∈ expectedCols) :
    c ∈ (normFrame p).cols ∧
    (c ∉ firstSeenKeys p → c ≠ "state" → c ≠ "city" → c ≠ "callsign" →
      ∀ row ∈ (normFrame p).rows, getVal row c = Val.null) := by
  constructor
  · rw [normFrame_cols]
    exact mem_normCols_of_expected hc
  · intro hks hs hci hk row hrow
    rcases mem_normFrame_rows.1 hrow with ⟨r, _, he⟩
    subst he
    rw [getVal_normRowFun p r c (mem_normCols_of_expected hc)]
    unfold rawVal
    rw [if_neg hks]
    simp [colTrans, hs, hci, hk]

/-- C5 witness: the theorem applied to the payload `[{radio_id: "7"}]` and
the absent column `fname`. -/
theorem C5_witness :
    getVal (normRowFun [[("radio_id", Val.str "7")]] [("radio_id", Val.str "7")])
      "fname" = Val.null :=
  (C5_absent_columns [[("radio_id", Val.str "7")]] "fname" (by decide)).2
    (by decide) (by decide) (by decide) (by decide)
    (normRowFun [[("radio_id", Val.str "7")]] [("radio_id", Val.str "7")])
    (mem_normFrame_rows.2 ⟨[("radio_id", Val.str "7")], by decide, rfl⟩)

theorem mem_keys_of_lookup_some :
    ∀ {r : Rec0} {c : String} {v : Val},
      List.lookup c r = some v → c ∈ r.map Prod.fst := by
  intro r
  induction r with
  | nil => intro c v h; simp [List.lookup] at h
  | cons kv r ih =>
    intro c v h
    obtain ⟨k, b⟩ := kv
    rw [List.lookup_cons] at h
    cases hck : c == k with
    | false =>
      rw [hck] at h
      simp only [List.map_cons]
      exact List.mem_cons_of_mem _ (ih h)
    | true =>
      simp only [List.map_cons]
      simp [beq_iff_eq.1 hck]

theorem colTrans_callsign (v : Val) :
    colTrans "callsign" v = Val.str (pyUpper (valToStr v)) := by
  simp [colTrans, show ("callsign" : String) ≠ "state" by decide,
    show ("callsign" : String) ≠ "city" by decide]

/-- C10 counterexample: in the payload `[{callsign: "AA"}, {}]` the second
record lacks the `callsign` key while the column exists, so pandas holds NaN
there; `astype(str)` renders it `"nan"` and uppercasing gives `"NAN"`, not
the claimed `"NONE"`.  (Rows shown in sorted order: `"AA" < "NAN"`.) -/
theorem C10_counterexample :
    (normFrame [[("callsign", Val.str "AA")], []]).rows.map
        (fun row => getVal row "callsign") = [Val.str "AA", Val.str "NAN"] ∧
    Val.str "NAN" ≠ Val.str "NONE" :=
  ⟨by decide, by decide⟩

/-- C10 (amended): a record whose `callsign` is JSON null — and likewise
every record when the `callsign` column is absent from the whole payload —
normalizes to the literal string `"NONE"` (string conversion before
uppercasing); but a record merely missing the key while other records supply
it holds NaN and normalizes to `"NAN"`.  In the text filter, a null `fname`
reads as the literal text `"NONE"`, so the query `"none"` matches rows with
missing names. -/
theorem C10_callsign_null_normalization (p : List Rec0) :
    (∀ r ∈ p, List.lookup "callsign" r = some Val.null →
      getVal (normRowFun p r) "callsign" = Val.str "NONE") ∧
    (∀ r ∈ p, "callsign" ∉ firstSeenKeys p →
      getVal (normRowFun p r) "callsign" = Val.str "NONE") ∧
    (∀ r ∈ p, "callsign" ∈ firstSeenKeys p → List.lookup "callsign" r = none →
      getVal (normRowFun p r) "callsign" = Val.str "NAN") ∧
    (∀ r : Operator, r.fname = Val.null → textStage [r] "none" = .ok [r]) := by
  have hget : ∀ r : Rec0, getVal (normRowFun p r) "callsign" =
      colTrans "callsign" (rawVal (firstSeenKeys p) r "callsign") := fun r =>
    getVal_normRowFun p r "callsign" (mem_normCols_of_expected (by decide))
  refine ⟨?_, ?_, ?_, ?_⟩
  · intro r hr hl
    rw [hget, colTrans_callsign]
    unfold rawVal
    rw [if_pos (mem_firstSeenKeys p "callsign" |>.2 ⟨r, hr, mem_keys_of_lookup_some hl⟩)]
    rw [hl]
    decide
  · intro r _ hks
    rw [hget, colTrans_callsign]
    unfold rawVal
    rw [if_neg hks]
    decide
  · intro r _ hks hl
    rw [hget, colTrans_callsign]
    unfold rawVal
    rw [if_pos hks, hl]
    decide
  · intro r hf
    unfold textStage
    have h1 : pyUpper (pyStrip "none") = "NONE" := by decide
    rw [h1, if_neg (by decide : ¬("NONE" : String) = ""),
      reCompile_lit "NONE" (by decide)]
    show Except.ok (([r] : Table).filter (maskPred (litRx "NONE".data))) =
      Except.ok [r]
    congr 1
    rw [List.filter_eq_self]
    intro a ha
    rw [List.mem_singleton.1 ha]
    unfold maskPred rxSearchS
    rw [hf]
    have h2 : rxSearch (litRx "NONE".data) (pyUpper (valToStr Val.null)).data = true := by
      decide
    simp [h2]

/-- C10 witness: the theorem applied to a concrete payload with a null
callsign, an absent-column payload, a missing-key record, and a row with a
null fname. -/
theorem C10_witness :
    getVal (normRowFun [[("callsign", Val.null)]] [("callsign", Val.null)])
      "callsign" = Val.str "NONE" ∧
    getVal (normRowFun [[("fname", Val.str "F")]] [("fname", Val.str "F")])
      "callsign" = Val.str "NONE" ∧
    getVal (normRowFun [[("callsign", Val.str "AA")], []] [])
      "callsign" = Val.str "NAN" ∧
    textStage [{ opA with fname := Val.null }] "none" =
      .ok [{ opA with fname := Val.null }] :=
  ⟨(C10_callsign_null_normalization [[("callsign", Val.null)]]).1
      [("callsign", Val.null)] (by decide) (by decide),
   (C10_callsign_null_normalization [[("fname", Val.str "F")]]).2.1
      [("fname", Val.str "F")] (by decide) (by decide),
   (C10_callsign_null_normalization [[("callsign", Val.str "AA")], []]).2.2.1
      [] (by decide) (by decide) (by decide),
   (C10_callsign_null_normalization []).2.2.2 { opA with fname := Val.null } rfl⟩

theorem filterPipeline_ok_sublist {T : Table} {regions cities : List String}
    {q : String} {out : Table}
    (h : filterPipeline T regions cities q = .ok out) : out.Sublist T := by
  have h1 : (regionStage T regions).Sublist T := List.filter_sublist _
  have h2 : (cityStage (regionStage T regions) cities).Sublist (regionStage T regions) := by
    unfold cityStage
    by_cases hc : cities.isEmpty
    · rw [if_pos hc]
    · rw [if_neg hc]
      exact List.filter_sublist _
  unfold filterPipeline textStage at h
  by_cases hq : pyUpper (pyStrip q) = ""
  · rw [if_pos hq] at h
    rw [← Except.ok.inj h]
    exact h2.trans h1
  · rw [if_neg hq] at h
    cases hre : reCompile (pyUpper (pyStrip q)) with
    | error e =>
      rw [hre] at h
      simp at h
    | ok rx =>
      rw [hre] at h
      rw [← Except.ok.inj h]
      exact (List.filter_sublist _).trans (h2.trans h1)

/-- C7: the normalized table is sorted ascending under the lexicographic
`(state, city, callsign)` key with missing values last, and each run of the
filter pipeline returns a sublist of its input — filtering never reorders —
so the sort order is preserved through filtering. -/
theorem C7_sort_invariant (p : List Rec0) (T : Table) (regions cities : List String)
    (q : String) (out : Table) (hT : List.Sorted rowLeP T)
    (hout : filterPipeline T regions cities q = .ok out) :
    List.Sorted rowLeP ((normFrame p).rows.map recOf) ∧
    out.Sublist T ∧ List.Sorted rowLeP out := by
  refine ⟨?_, filterPipeline_ok_sublist hout,
    List.Pairwise.sublist (filterPipeline_ok_sublist hout) hT⟩
  rw [normFrame_eq]
  exact List.Pairwise.map recOf (fun a b hab => hab)
    (List.sorted_insertionSort frameRowLe (p.map (normRowFun p)))

/-- C7 witness: the theorem applied to a concrete payload, table and filter. -/
theorem C7_witness :
    List.Sorted rowLeP ((normFrame [[("state", Val.str "A")]]).rows.map recOf) ∧
    ([opA] : Table).Sublist [opA] ∧ List.Sorted rowLeP ([opA] : Table) :=
  C7_sort_invariant [[("state", Val.str "A")]] [opA] ["X"] [] "" [opA]
    (by simp [List.Sorted]) rfl

theorem mem_regionsOf {T : Table} {s : String} : s ∈ regionsOf T ↔ s ∈ stateStrs T := by
  unfold regionsOf
  rw [(List.perm_insertionSort strLeP _).mem_iff, mem_uniqueFS]

theorem cityStage_filter_form (T : Table) (regions cities : List String) :
    cityStage (regionStage T regions) cities =
      T.filter (fun r => regionPred regions r && (cities.isEmpty || cityPred cities r)) := by
  unfold cityStage regionStage
  by_cases hc : cities.isEmpty
  · rw [if_pos hc]
    apply List.filter_congr
    intro r _
    simp [hc]
  · rw [if_neg hc, List.filter_filter]
    apply List.filter_congr
    intro r _
    cases h2 : cities.isEmpty
    · simp [Bool.and_comm]
    · exact absurd h2 hc

/-- C8 counterexample: on a table containing a row with missing `state`, the
"full region set present in the table" (computed with `dropna().unique()`)
does not cover that row, so filtering with it drops the row: the identity
law fails as stated "for every table". -/
theorem C8_counterexample :
    filterPipeline [opN] (regionsOf [opN]) [] "" = .ok [] ∧
    ([opN] : Table) ≠ [] :=
  ⟨rfl, by decide⟩

/-- C8 (amended): on tables with no missing `state` — all normalized tables —
filtering with the full region set, no cities and a blank query is the
identity; and the pipeline equals the table filtered row-by-row by the
conjunction of the three independent predicates (region membership; city
membership unless the city set is empty; regex mask unless the query is
blank). -/
theorem C8_filter_algebra (T : Table) (regions cities : List String) (q : String) :
    ((∀ r ∈ T, r.state.isNA = false) →
      filterPipeline T (regionsOf T) [] "" = .ok T) ∧
    (pyUpper (pyStrip q) = "" →
      filterPipeline T regions cities q = .ok (T.filter (fun r =>
        regionPred regions r && (cities.isEmpty || cityPred cities r)))) ∧
    (∀ rx, pyUpper (pyStrip q) ≠ "" → reCompile (pyUpper (pyStrip q)) = .ok rx →
      filterPipeline T regions cities q = .ok (T.filter (fun r =>
        regionPred regions r && (cities.isEmpty || cityPred cities r) && maskPred rx r))) := by
  refine ⟨?_, ?_, ?_⟩
  · intro hna
    unfold filterPipeline textStage
    rw [if_pos (by decide : pyUpper (pyStrip "") = "")]
    rw [cityStage_filter_form]
    congr 1
    rw [List.filter_eq_self]
    intro r hr
    have hpred : regionPred (regionsOf T) r = true := by
      unfold regionPred valIsIn
      cases hst : r.state with
      | null =>
        have := hna r hr
        rw [hst] at this
        exact absurd this (by simp [Val.isNA])
      | nan =>
        have := hna r hr
        rw [hst] at this
        exact absurd this (by simp [Val.isNA])
      | str s =>
        apply List.elem_iff.2
        apply mem_regionsOf.2
        exact List.mem_filterMap.2 ⟨r, hr, by rw [hst]⟩
    simp [hpred]
  · intro hq
    unfold filterPipeline textStage
    rw [if_pos hq, cityStage_filter_form]
  · intro rx hq hre
    unfold filterPipeline textStage
    rw [if_neg hq, hre]
    show Except.ok ((cityStage (regionStage T regions) cities).filter (maskPred rx)) = _
    rw [cityStage_filter_form, List.filter_filter]
    congr 1
    apply List.filter_congr
    intro r _
    cases regionPred regions r <;>
      cases cityPred cities r <;>
        cases maskPred rx r <;>
          cases cities.isEmpty <;> rfl

/-- C8 witness: identity on a concrete null-state-free table, and the
conjunction form for a concrete query. -/
theorem C8_witness :
    filterPipeline [opA] (regionsOf [opA]) [] "" = .ok [opA] ∧
    filterPipeline [opA] ["X"] ["Y"] " ab " = .ok (([opA] : Table).filter (fun r =>
      regionPred ["X"] r && ((["Y"] : List String).isEmpty || cityPred ["Y"] r) &&
        maskPred (litRx "AB".data) r)) :=
  ⟨(C8_filter_algebra [opA] [] [] "").1 (by decide),
   (C8_filter_algebra [opA] ["X"] ["Y"] " ab ").2.2 (litRx "AB".data)
     (by decide) rfl⟩

theorem ensureColumns_cols : ∀ (names : List String), names.Nodup →
    ∀ (v : Val) (f : Frame),
    (ensureColumns names v f).cols =
      f.cols ++ names.filter (fun c => decide (c ∉ f.cols))
  | [], _, v, f => by simp [ensureColumns]
  | n :: ns, hnd, v, f => by
    have hn_ns : n ∉ ns := (List.nodup_cons.1 hnd).1
    have hnd' : ns.Nodup := (List.nodup_cons.1 hnd).2
    show (ensureColumns ns v (addMissingCol v f n)).cols = _
    by_cases hn : n ∈ f.cols
    · have hid : addMissingCol v f n = f := by simp [addMissingCol, hn]
      rw [hid, ensureColumns_cols ns hnd' v f, List.filter_cons,
        if_neg (by simp [hn])]
    · have hadd : addMissingCol v f n =
          { cols := f.cols ++ [n],
            rows := f.rows.map (fun row => row ++ [(n, v)]) } := by
        simp [addMissingCol, hn]
      rw [hadd, ensureColumns_cols ns hnd' v _]
      show (f.cols ++ [n]) ++ ns.filter (fun c => decide (c ∉ f.cols ++ [n])) = _
      have hfc : List.filter (fun c => decide (c ∉ f.cols ++ [n])) ns =
          List.filter (fun c => decide (c ∉ f.cols)) ns := by
        apply List.filter_congr
        intro x hx
        rw [decide_eq_decide]
        have hxn : x ≠ n := fun e => hn_ns (e ▸ hx)
        simp [List.mem_append, hxn]
      rw [List.filter_cons, if_pos (by simp [hn]), hfc, List.append_assoc]
      rfl

theorem string_empty_append (s : String) : "" ++ s = s :=
  stringEq_of_data_eq (by rw [String.data_append]; rfl)

theorem stringJoin_singleton (s : String) : String.join [s] = s := by
  show "" ++ s = s
  exact string_empty_append s

/-- Payload whose single record lists all seven keys, `state` first (the
order the upstream API uses). -/
def pC2 : List Rec0 :=
  [[("state", Val.str "A"), ("city", Val.str "B"), ("callsign", Val.str "C"),
    ("radio_id", Val.str "1"), ("fname", Val.str "F"), ("lname", Val.str "L"),
    ("last_seen", Val.str "T")]]

/-- C2 counterexample: `to_csv_bytes` is applied to `df_filtered` with all
its columns in the frame's own order (the payload's first-seen key order),
not to `df_filtered[columns_to_show]`: for the payload `pC2` the app's
unrestricted filter keeps the whole table and the exported header line is
`state,city,callsign,...`, not the claimed display order
`callsign,radio_id,...`. -/
theorem C2_counterexample :
    frameFilter (normFrame pC2) (regionsOf ((normFrame pC2).rows.map recOf)) [] "" =
      .ok (normFrame pC2) ∧
    csvLines (ensureDisplayCols (normFrame pC2)) =
      ["state,city,callsign,radio_id,fname,lname,last_seen", "A,B,C,1,F,L,T"] ∧
    "state,city,callsign,radio_id,fname,lname,last_seen" ≠
      "callsign,radio_id,fname,lname,city,state,last_seen" :=
  ⟨rfl, by decide, by decide⟩

/-- C2 (amended): for every payload and filter criteria, the exported CSV of
the filtered table (after the app's display-column patch-up) consists of one
header line listing the table's columns in the table's own order — the seven
display columns are always among them — followed by one line per filtered
record; export of an empty table yields a header-only CSV ending in one
newline. -/
theorem C2_csv_shape (p : List Rec0) (regions cities : List String) (q : String)
    (F : Frame) (_hF : frameFilter (normFrame p) regions cities q = .ok F) :
    (csvLines (ensureDisplayCols F)).length = (ensureDisplayCols F).rows.length + 1 ∧
    (csvLines (ensureDisplayCols F)).head? =
      some (String.intercalate "," ((ensureDisplayCols F).cols.map csvQuote)) ∧
    (∀ c ∈ columns_to_show, c ∈ (ensureDisplayCols F).cols) ∧
    ((ensureDisplayCols F).rows = [] →
      to_csv_bytes (ensureDisplayCols F) =
        String.intercalate "," ((ensureDisplayCols F).cols.map csvQuote) ++ "\n") := by
  refine ⟨?_, rfl, ?_, ?_⟩
  · simp [csvLines]
  · intro c hc
    show c ∈ (ensureColumns columns_to_show Val.null F).cols
    rw [ensureColumns_cols columns_to_show (by decide) Val.null F]
    by_cases h : c ∈ F.cols
    · exact List.mem_append.2 (Or.inl h)
    · exact List.mem_append.2 (Or.inr (List.mem_filter.2 ⟨hc, by simp [h]⟩))
  · intro h
    unfold to_csv_bytes csvLines
    rw [h]
    simp only [List.map_nil, List.map_cons]
    exact stringJoin_singleton _

/-- C2 witness: the theorem applied to the concrete payload `pC2` with the
app's default filter criteria. -/
theorem C2_witness :
    (csvLines (ensureDisplayCols (normFrame pC2))).length =
      (ensureDisplayCols (normFrame pC2)).rows.length + 1 ∧
    (csvLines (ensureDisplayCols (normFrame pC2))).head? =
      some (String.intercalate ","
        ((ensureDisplayCols (normFrame pC2)).cols.map csvQuote)) ∧
    (∀ c ∈ columns_to_show, c ∈ (ensureDisplayCols (normFrame pC2)).cols) ∧
    ((ensureDisplayCols (normFrame pC2)).rows = [] →
      to_csv_bytes (ensureDisplayCols (normFrame pC2)) =
        String.intercalate ","
          ((ensureDisplayCols (normFrame pC2)).cols.map csvQuote) ++ "\n") :=
  C2_csv_shape pC2 (regionsOf ((normFrame pC2).rows.map recOf)) [] ""
    (normFrame pC2) rfl
